import Mathlib

/-!
Verification development for the Modelica pretty-printer plugin
(src/prettier-plugin-modelica.js).  The formatter `formatModelica` is a
five-stage text pipeline: a preprocessor, a line-oriented indentation
engine, an ordered list of whole-text pattern substitutions, a corrective
re-indentation pass, and a final cleanup pass.  Each JS regular-expression
substitution is embedded as an explicit matcher over character lists with
the same left-to-right, non-overlapping, leftmost-match semantics as
String.prototype.replace with the /g flag.  JS `' '.repeat(n)` throws a
RangeError for negative n; this is modelled by an Option result, so the
whole formatter returns `Option String`, `none` meaning the JS code throws.
-/

/-- JS whitespace class `\s` restricted to ASCII (space, tab, newline,
carriage return, vertical tab, form feed), as used by `trim` and `\s`. -/
def isJSSpace (c : Char) : Bool :=
  c == ' ' || c == '\t' || c == '\n' || c == '\r' || c == '\x0b' || c == '\x0c'

/-- JS word-character class `\w` = [A-Za-z0-9_]. -/
def isWordChar (c : Char) : Bool :=
  c.isAlpha || c.isDigit || c == '_'

/-- The operator class `[+*\/=<>]` of the operator-spacing rule. -/
def isOpChar (c : Char) : Bool :=
  c == '+' || c == '*' || c == '/' || c == '=' || c == '<' || c == '>'

/-- JS String.prototype.trim on a character list. -/
def trimL (l : List Char) : List Char :=
  ((l.dropWhile isJSSpace).reverse.dropWhile isJSSpace).reverse

/-- JS `text.split('\n')`. -/
def splitNl : List Char → List (List Char)
  | [] => [[]]
  | c :: cs =>
    if c == '\n' then [] :: splitNl cs
    else
      match splitNl cs with
      | l :: ls => (c :: l) :: ls
      | [] => [[c]]

/-- JS `lines.join('\n')`. -/
def joinNl : List (List Char) → List Char
  | [] => []
  | [l] => l
  | l :: ls => l ++ '\n' :: joinNl ls

/-- JS `s.includes(pat)`. -/
def includesL (pat : List Char) : List Char → Bool
  | [] => pat.isPrefixOf []
  | c :: cs => pat.isPrefixOf (c :: cs) || includesL pat cs

/-- Match a literal, returning the rest of the input on success. -/
def litP (p cs : List Char) : Option (List Char) :=
  if p.isPrefixOf cs then some (cs.drop p.length) else none

/-- First literal of a regex alternation that matches (alternatives are
tried in order, as the JS regex engine does). -/
def litAlt : List (List Char) → List Char → Option (List Char × List Char)
  | [], _ => none
  | p :: ps, cs =>
    match litP p cs with
    | some r => some (p, r)
    | none => litAlt ps cs

/-- Greedy `\s+`: at least one whitespace character. -/
def wsPlus (cs : List Char) : Option (List Char × List Char) :=
  let s := List.span isJSSpace cs
  if s.1.isEmpty then none else some s

/-- Greedy `\d+`: at least one digit. -/
def digitsPlus (cs : List Char) : Option (List Char × List Char) :=
  let s := List.span (fun c => c.isDigit) cs
  if s.1.isEmpty then none else some s

/-- Greedy `\w+`: at least one word character. -/
def wordPlus (cs : List Char) : Option (List Char × List Char) :=
  let s := List.span isWordChar cs
  if s.1.isEmpty then none else some s

/-- Global regex substitution driver, the model of
`text.replace(/re/g, repl)`.  A matcher receives the character before the
current position (`none` at the very start, which is how the `^` anchor
and the left half of `\b` are decided) and the remaining input; on success
it returns the replacement text and the input remaining after the match.
Matches consume at least one character (true of every pattern in the
source); scanning resumes after the consumed text and replacements are
never rescanned, exactly as String.replace does. -/
def gsubF (m : Option Char → List Char → Option (List Char × List Char)) :
    Nat → Option Char → List Char → List Char
  | 0, _, cs => cs
  | _ + 1, _, [] => []
  | fuel + 1, prev, c :: cs =>
    match m prev (c :: cs) with
    | some (r, rest) =>
      if rest.length < cs.length + 1 then
        r ++ gsubF m fuel (some ((c :: cs).getD (cs.length - rest.length) c)) rest
      else
        c :: gsubF m fuel (some c) cs
    | none => c :: gsubF m fuel (some c) cs

/-- The driver applied with enough fuel: every match consumes at least one
character, so an initial fuel equal to the input length always suffices
(the zero-fuel case of `gsubF` is never reached). -/
def gsub (m : Option Char → List Char → Option (List Char × List Char))
    (prev : Option Char) (cs : List Char) : List Char :=
  gsubF m cs.length prev cs

/-! ### Stage 1: preprocessor matchers -/

/-- `/\r\n/g → '\n'`. -/
def mCRLF (_ : Option Char) (cs : List Char) : Option (List Char × List Char) :=
  match cs with
  | '\r' :: '\n' :: rest => some (['\n'], rest)
  | _ => none

/-- `/\/\s+\//g → '//'` (repair a split line-comment marker). -/
def mSlashFix (_ : Option Char) (cs : List Char) : Option (List Char × List Char) :=
  match cs with
  | '/' :: r =>
    match wsPlus r with
    | some (_, '/' :: r2) => some (['/', '/'], r2)
    | _ => none
  | _ => none

/-- `/(nUniShc|nUniHea|nUniCoo)\s+-\s+(\d+)/g → '$1-$2'`. -/
def mNUniTight (_ : Option Char) (cs : List Char) : Option (List Char × List Char) :=
  match litAlt ["nUniShc".data, "nUniHea".data, "nUniCoo".data] cs with
  | some (id, r) =>
    match wsPlus r with
    | some (_, '-' :: r2) =>
      match wsPlus r2 with
      | some (_, r3) =>
        match digitsPlus r3 with
        | some (ds, r4) => some (id ++ '-' :: ds, r4)
        | none => none
      | none => none
    | _ => none
  | none => none

/-- `/\(\s*1\s+-\s+ratCycShc\)/g → '(1-ratCycShc)'`. -/
def mRatTight (_ : Option Char) (cs : List Char) : Option (List Char × List Char) :=
  match cs with
  | '(' :: r =>
    match (List.span isJSSpace r).2 with
    | '1' :: r2 =>
      match wsPlus r2 with
      | some (_, '-' :: r3) =>
        match wsPlus r3 with
        | some (_, r4) =>
          match litP "ratCycShc)".data r4 with
          | some r5 => some ("(1-ratCycShc)".data, r5)
          | none => none
        | none => none
      | _ => none
    | _ => none
  | _ => none

/-- `/\(nUniShc\s+-\s+(\d+)\s+\+\s+ratCycShc\)/g → '(nUniShc-$1 + ratCycShc)'`. -/
def mNUniPlusRat1 (_ : Option Char) (cs : List Char) : Option (List Char × List Char) :=
  match litP "(nUniShc".data cs with
  | some r =>
    match wsPlus r with
    | some (_, '-' :: r2) =>
      match wsPlus r2 with
      | some (_, r3) =>
        match digitsPlus r3 with
        | some (ds, r4) =>
          match wsPlus r4 with
          | some (_, '+' :: r5) =>
            match wsPlus r5 with
            | some (_, r6) =>
              match litP "ratCycShc)".data r6 with
              | some r7 => some ("(nUniShc-".data ++ ds ++ " + ratCycShc)".data, r7)
              | none => none
            | none => none
          | _ => none
        | none => none
      | none => none
    | _ => none
  | none => none

/-! ### Stage 3: token-normalizer matchers, in source order -/

/-- `/within\s+([^;]+);/g → 'within $1;'`.  The greedy `\s+` takes the
maximal whitespace run; `[^;]+` then runs to the first `;` (backtracking
gives it the last whitespace character when nothing else is left). -/
def mWithin1 (_ : Option Char) (cs : List Char) : Option (List Char × List Char) :=
  match litP "within".data cs with
  | some r1 =>
    match r1 with
    | c :: _ =>
      if isJSSpace c then
        let pre := r1.takeWhile (fun x => !(x == ';'))
        match r1.dropWhile (fun x => !(x == ';')) with
        | _ :: r2 =>
          let w := (r1.takeWhile isJSSpace).length
          let cap := if w < pre.length then pre.drop w else pre.drop (pre.length - 1)
          some ("within ".data ++ cap ++ [';'], r2)
        | [] => none
      else none
    | [] => none
  | none => none

/-- `/within[^;]*;\n(?!\s*$)/g → match + '\n'` (blank line after a within
clause unless only whitespace remains). -/
def mWithin2 (_ : Option Char) (cs : List Char) : Option (List Char × List Char) :=
  match litP "within".data cs with
  | some r1 =>
    let pre := r1.takeWhile (fun x => !(x == ';'))
    match r1.dropWhile (fun x => !(x == ';')) with
    | _ :: '\n' :: r2 =>
      if r2.all isJSSpace then none
      else some ("within".data ++ pre ++ [';', '\n', '\n'], r2)
    | _ => none
  | none => none

/-- `/,(?=\S)/g → ', '` (space after comma; lookahead consumes nothing). -/
def mComma (_ : Option Char) (cs : List Char) : Option (List Char × List Char) :=
  match cs with
  | ',' :: c :: r => if isJSSpace c then none else some ([',', ' '], c :: r)
  | _ => none

/-- `/\s*([+*\/=<>])\s*/g → ' $1 '` (operator spacing; `\s` spans
newlines, so this can join physical lines). -/
def mOpSpace (_ : Option Char) (cs : List Char) : Option (List Char × List Char) :=
  match (List.span isJSSpace cs).2 with
  | c :: r2 =>
    if isOpChar c then some ([' ', c, ' '], (List.span isJSSpace r2).2)
    else none
  | [] => none

/-- `/(\w|\)|\]|\})\s*-\s*/g → '$1 - '` (minus after a value is subtraction). -/
def mMinusSub (_ : Option Char) (cs : List Char) : Option (List Char × List Char) :=
  match cs with
  | c :: r =>
    if isWordChar c || c == ')' || c == ']' || c == '}' then
      match (List.span isJSSpace r).2 with
      | '-' :: r2 => some ([c, ' ', '-', ' '], (List.span isJSSpace r2).2)
      | _ => none
    else none
  | [] => none

/-- The `^` alternative of the literal-sign rule: only applicable at the
very start of the text (no preceding character). -/
def mMinusLitHat (prev : Option Char) (cs : List Char) : Option (List Char × List Char) :=
  match prev, cs with
  | none, '-' :: r =>
    match wsPlus r with
    | some (_, d :: r2) => if d.isDigit then some (['-', d], r2) else none
    | _ => none
  | _, _ => none

/-- `/(\s|^|,|\(|\[|\{|=)-\s+(\d)/g → '$1-$2'` (tighten a literal sign). -/
def mMinusLit (prev : Option Char) (cs : List Char) : Option (List Char × List Char) :=
  (match cs with
   | c :: '-' :: r =>
     if isJSSpace c || c == ',' || c == '(' || c == '[' || c == '{' || c == '=' then
       match wsPlus r with
       | some (_, d :: r2) => if d.isDigit then some ([c, '-', d], r2) else none
       | _ => none
     else none
   | _ => none) <|> mMinusLitHat prev cs

/-- `/(\*|\/|\+|\s)\s*-\s+(\d)/g → '$1-$2'` (negation in an expression). -/
def mMinusNeg (_ : Option Char) (cs : List Char) : Option (List Char × List Char) :=
  match cs with
  | c :: r =>
    if c == '*' || c == '/' || c == '+' || isJSSpace c then
      match (List.span isJSSpace r).2 with
      | '-' :: r2 =>
        match wsPlus r2 with
        | some (_, d :: r3) => if d.isDigit then some ([c, '-', d], r3) else none
        | _ => none
      | _ => none
    else none
  | [] => none

/-- `/([eE])\s*-\s*(\d)/g → '$1-$2'` (scientific-notation exponent sign). -/
def mExpMinus (_ : Option Char) (cs : List Char) : Option (List Char × List Char) :=
  match cs with
  | c :: r =>
    if c == 'e' || c == 'E' then
      match (List.span isJSSpace r).2 with
      | '-' :: r2 =>
        match (List.span isJSSpace r2).2 with
        | d :: r3 => if d.isDigit then some ([c, '-', d], r3) else none
        | [] => none
      | _ => none
    else none
  | [] => none

/-- `/annotation\s*\(\s*/g → 'annotation('`. -/
def mAnnot (_ : Option Char) (cs : List Char) : Option (List Char × List Char) :=
  match litP "annotation".data cs with
  | some r =>
    match (List.span isJSSpace r).2 with
    | '(' :: r2 => some ("annotation(".data, (List.span isJSSpace r2).2)
    | _ => none
  | none => none

/-- `/\[\s*:\s*\]/g → '[:]'`. -/
def mBrackColonEmpty (_ : Option Char) (cs : List Char) : Option (List Char × List Char) :=
  match cs with
  | '[' :: r =>
    match (List.span isJSSpace r).2 with
    | ':' :: r2 =>
      match (List.span isJSSpace r2).2 with
      | ']' :: r3 => some ("[:]".data, r3)
      | _ => none
    | _ => none
  | _ => none

/-- `/(\d|\w|\))\s*:\s*(\d|\w|\()/g → '$1:$2'` (tighten range colons). -/
def mColonPair (_ : Option Char) (cs : List Char) : Option (List Char × List Char) :=
  match cs with
  | c :: r =>
    if isWordChar c || c == ')' then
      match (List.span isJSSpace r).2 with
      | ':' :: r2 =>
        match (List.span isJSSpace r2).2 with
        | d :: r3 => if isWordChar d || d == '(' then some ([c, ':', d], r3) else none
        | [] => none
      | _ => none
    else none
  | [] => none

/-- `/(\w+)\s*\[\s*(\d+)\s*:\s*(\d+)\s*\]/g → '$1[$2:$3]'`. -/
def mArrRange (_ : Option Char) (cs : List Char) : Option (List Char × List Char) :=
  match wordPlus cs with
  | some (w, r) =>
    match (List.span isJSSpace r).2 with
    | '[' :: r2 =>
      match digitsPlus (List.span isJSSpace r2).2 with
      | some (d1, r3) =>
        match (List.span isJSSpace r3).2 with
        | ':' :: r4 =>
          match digitsPlus (List.span isJSSpace r4).2 with
          | some (d2, r5) =>
            match (List.span isJSSpace r5).2 with
            | ']' :: r6 => some (w ++ '[' :: (d1 ++ ':' :: (d2 ++ [']'])), r6)
            | _ => none
          | none => none
        | _ => none
      | none => none
    | _ => none
  | none => none

/-- `/(\w+)\s*\[\s*:\s*\]/g → '$1[:]'`. -/
def mArrColonW (_ : Option Char) (cs : List Char) : Option (List Char × List Char) :=
  match wordPlus cs with
  | some (w, r) =>
    match (List.span isJSSpace r).2 with
    | '[' :: r2 =>
      match (List.span isJSSpace r2).2 with
      | ':' :: r3 =>
        match (List.span isJSSpace r3).2 with
        | ']' :: r4 => some (w ++ "[:]".data, r4)
        | _ => none
      | _ => none
    | _ => none
  | none => none

/-- `/for\s+(\w+)\s+in\s+(\d+)\s*:\s*(\d+)/g → 'for $1 in $2:$3'`. -/
def mForRange (_ : Option Char) (cs : List Char) : Option (List Char × List Char) :=
  match litP "for".data cs with
  | some r =>
    match wsPlus r with
    | some (_, r1) =>
      match wordPlus r1 with
      | some (w, r2) =>
        match wsPlus r2 with
        | some (_, r3) =>
          match litP "in".data r3 with
          | some r4 =>
            match wsPlus r4 with
            | some (_, r5) =>
              match digitsPlus r5 with
              | some (d1, r6) =>
                match (List.span isJSSpace r6).2 with
                | ':' :: r7 =>
                  match digitsPlus (List.span isJSSpace r7).2 with
                  | some (d2, r8) =>
                    some ("for ".data ++ w ++ " in ".data ++ d1 ++ ':' :: d2, r8)
                  | none => none
                | _ => none
              | none => none
            | none => none
          | none => none
        | none => none
      | none => none
    | none => none
  | none => none

/-- `/\[\s*-\s*(\d+)/g → '[-$1'`. -/
def mBrackNegP (_ : Option Char) (cs : List Char) : Option (List Char × List Char) :=
  match cs with
  | '[' :: r =>
    match (List.span isJSSpace r).2 with
    | '-' :: r2 =>
      match digitsPlus (List.span isJSSpace r2).2 with
      | some (ds, r3) => some ('[' :: '-' :: ds, r3)
      | none => none
    | _ => none
  | _ => none

/-- `/\{\s*-\s*(\d+)/g → '{-$1'`. -/
def mBraceNegP (_ : Option Char) (cs : List Char) : Option (List Char × List Char) :=
  match cs with
  | '{' :: r =>
    match (List.span isJSSpace r).2 with
    | '-' :: r2 =>
      match digitsPlus (List.span isJSSpace r2).2 with
      | some (ds, r3) => some ('{' :: '-' :: ds, r3)
      | none => none
    | _ => none
  | _ => none

/-- `/\b(parameter|input|output|constant)\b(?=\S)/g → '$1 '`.  The left
word boundary reads the previous source character; the right boundary plus
the `(?=\S)` lookahead require a next character that is neither a word
character nor whitespace. -/
def mParamKw (prev : Option Char) (cs : List Char) : Option (List Char × List Char) :=
  if (match prev with | some p => isWordChar p | none => false) then none
  else
    match litAlt ["parameter".data, "input".data, "output".data, "constant".data] cs with
    | some (w, r) =>
      match r with
      | c :: _ => if !(isWordChar c) && !(isJSSpace c) then some (w ++ [' '], r) else none
      | [] => none
    | none => none

/-- `/\n{3,}/g → '\n\n'` (collapse blank-line runs). -/
def mCollapse (_ : Option Char) (cs : List Char) : Option (List Char × List Char) :=
  let s := List.span (fun c => c == '\n') cs
  if 3 ≤ s.1.length then some (['\n', '\n'], s.2) else none

/-- `/(equation|algorithm|public|protected|initial equation|initial
algorithm)\n(?!\s*$)/g → '$1\n\n'` (blank line after a section header
unless only whitespace remains). -/
def mSectionBlank (_ : Option Char) (cs : List Char) : Option (List Char × List Char) :=
  match litAlt ["equation".data, "algorithm".data, "public".data, "protected".data,
                "initial equation".data, "initial algorithm".data] cs with
  | some (w, r) =>
    match r with
    | '\n' :: r2 =>
      if r2.all isJSSpace then none else some (w ++ ['\n', '\n'], r2)
    | _ => none
  | none => none

/-! ### Stage 5: final-cleanup matchers -/

/-- `/\s+-(\d)/g → ' -$1'`. -/
def mWsMinusDigit (_ : Option Char) (cs : List Char) : Option (List Char × List Char) :=
  match wsPlus cs with
  | some (_, '-' :: d :: r2) => if d.isDigit then some ([' ', '-', d], r2) else none
  | _ => none

/-- `/\(\s*-\s*(\d)/g → '(-$1'`. -/
def mParenMinus (_ : Option Char) (cs : List Char) : Option (List Char × List Char) :=
  match cs with
  | '(' :: r =>
    match (List.span isJSSpace r).2 with
    | '-' :: r2 =>
      match (List.span isJSSpace r2).2 with
      | d :: r3 => if d.isDigit then some (['(', '-', d], r3) else none
      | [] => none
    | _ => none
  | _ => none

/-- `/\[\s*-\s*(\d)/g → '[-$1'`. -/
def mBrackMinus (_ : Option Char) (cs : List Char) : Option (List Char × List Char) :=
  match cs with
  | '[' :: r =>
    match (List.span isJSSpace r).2 with
    | '-' :: r2 =>
      match (List.span isJSSpace r2).2 with
      | d :: r3 => if d.isDigit then some (['[', '-', d], r3) else none
      | [] => none
    | _ => none
  | _ => none

/-- `/,\s*-\s*(\d)/g → ', -$1'`. -/
def mCommaMinus (_ : Option Char) (cs : List Char) : Option (List Char × List Char) :=
  match cs with
  | ',' :: r =>
    match (List.span isJSSpace r).2 with
    | '-' :: r2 =>
      match (List.span isJSSpace r2).2 with
      | d :: r3 => if d.isDigit then some ([',', ' ', '-', d], r3) else none
      | [] => none
    | _ => none
  | _ => none

/-- `/=\s*-\s*(\d)/g → '= -$1'`. -/
def mEqMinus (_ : Option Char) (cs : List Char) : Option (List Char × List Char) :=
  match cs with
  | '=' :: r =>
    match (List.span isJSSpace r).2 with
    | '-' :: r2 =>
      match (List.span isJSSpace r2).2 with
      | d :: r3 => if d.isDigit then some (['=', ' ', '-', d], r3) else none
      | [] => none
    | _ => none
  | _ => none

/-- `/([eE])\s*\+\s*(\d)/g → '$1+$2'`. -/
def mExpPlus (_ : Option Char) (cs : List Char) : Option (List Char × List Char) :=
  match cs with
  | c :: r =>
    if c == 'e' || c == 'E' then
      match (List.span isJSSpace r).2 with
      | '+' :: r2 =>
        match (List.span isJSSpace r2).2 with
        | d :: r3 => if d.isDigit then some ([c, '+', d], r3) else none
        | [] => none
      | _ => none
    else none
  | [] => none

/-- `/nUniShc\s+-\s+(\d)/g → 'nUniShc-$1'`. -/
def mNUniMinus (_ : Option Char) (cs : List Char) : Option (List Char × List Char) :=
  match litP "nUniShc".data cs with
  | some r =>
    match wsPlus r with
    | some (_, '-' :: r2) =>
      match wsPlus r2 with
      | some (_, d :: r3) => if d.isDigit then some ("nUniShc-".data ++ [d], r3) else none
      | _ => none
    | _ => none
  | none => none

/-- `/\(\s*nUniShc\s+-\s+(\d)/g → '(nUniShc-$1'`. -/
def mParenNUniMinus (_ : Option Char) (cs : List Char) : Option (List Char × List Char) :=
  match cs with
  | '(' :: r =>
    match litP "nUniShc".data (List.span isJSSpace r).2 with
    | some r2 =>
      match wsPlus r2 with
      | some (_, '-' :: r3) =>
        match wsPlus r3 with
        | some (_, d :: r4) => if d.isDigit then some ("(nUniShc-".data ++ [d], r4) else none
        | _ => none
      | _ => none
    | none => none
  | _ => none

/-- `/\s+\*\s+-\s+(\d)/g → ' *-$1'`. -/
def mStarMinus (_ : Option Char) (cs : List Char) : Option (List Char × List Char) :=
  match wsPlus cs with
  | some (_, '*' :: r) =>
    match wsPlus r with
    | some (_, '-' :: r2) =>
      match wsPlus r2 with
      | some (_, d :: r3) => if d.isDigit then some ([' ', '*', '-', d], r3) else none
      | _ => none
    | _ => none
  | _ => none

/-- `/\s+\/\s+-\s+(\d)/g`, replaced by space, slash, minus, `$1`. -/
def mSlashMinus (_ : Option Char) (cs : List Char) : Option (List Char × List Char) :=
  match wsPlus cs with
  | some (_, '/' :: r) =>
    match wsPlus r with
    | some (_, '-' :: r2) =>
      match wsPlus r2 with
      | some (_, d :: r3) => if d.isDigit then some ([' ', '/', '-', d], r3) else none
      | _ => none
    | _ => none
  | _ => none

/-- `/\(nUniShc\s*-\s*(\d+)\s+\+\s+ratCycShc\)/g → '(nUniShc-$1 + ratCycShc)'`. -/
def mNUniPlusRat2 (_ : Option Char) (cs : List Char) : Option (List Char × List Char) :=
  match litP "(nUniShc".data cs with
  | some r =>
    match (List.span isJSSpace r).2 with
    | '-' :: r2 =>
      match digitsPlus (List.span isJSSpace r2).2 with
      | some (ds, r3) =>
        match wsPlus r3 with
        | some (_, '+' :: r4) =>
          match wsPlus r4 with
          | some (_, r5) =>
            match litP "ratCycShc)".data r5 with
            | some r6 => some ("(nUniShc-".data ++ ds ++ " + ratCycShc)".data, r6)
            | none => none
          | none => none
        | _ => none
      | none => none
    | _ => none
  | none => none

/-- `/\((nUniShc|nUniHea|nUniCoo)\s*-\s*\d+\)/g → '($1-1)'`. -/
def mNUniParen (_ : Option Char) (cs : List Char) : Option (List Char × List Char) :=
  match cs with
  | '(' :: r =>
    match litAlt ["nUniShc".data, "nUniHea".data, "nUniCoo".data] r with
    | some (id, r1) =>
      match (List.span isJSSpace r1).2 with
      | '-' :: r2 =>
        match digitsPlus (List.span isJSSpace r2).2 with
        | some (_, ')' :: r3) => some ('(' :: id ++ "-1)".data, r3)
        | _ => none
      | _ => none
    | none => none
  | _ => none

/-! ### Stage 2: the indentation engine -/

/-- A control-block frame: `controlBlocks.push({ type, level: indentLevel + 1 })`.
The JS array pushes/pops at the end; here the head of the list is the top
of the stack. -/
structure Frame where
  type : List Char
  level : Int
deriving Repr, DecidableEq

/-- The scan state of the indentation engine: `indentLevel` (a JS number,
so it is an Int here and can in principle go negative), the two section
flags `inEquation` / `inAlgorithm`, and the control-block stack. -/
structure EngState where
  indentLevel : Int
  inEquation : Bool
  inAlgorithm : Bool
  controlBlocks : List Frame
deriving Repr, DecidableEq

/-- `indent.repeat(n)` where `indent` is the tab string: JS
String.prototype.repeat throws a RangeError when the count is negative,
modelled as `none`. -/
def jsRepeat (s : List Char) (n : Int) : Option (List Char) :=
  if n < 0 then none else some (List.flatten (List.replicate n.toNat s))

/-- Line is exactly one of the four section keywords (source line 70). -/
def isSectionKw (l : List Char) : Bool :=
  l == "equation".data || l == "initial equation".data ||
  l == "algorithm".data || l == "initial algorithm".data

/-- Line is exactly `end`, `end;`, `public` or `protected` (source line 80). -/
def isSectionEnder (l : List Char) : Bool :=
  l == "end".data || l == "end;".data || l == "public".data || l == "protected".data

/-- Line begins a class-like declaration (source line 95). -/
def isClassKw (l : List Char) : Bool :=
  "model ".data.isPrefixOf l || "block ".data.isPrefixOf l ||
  "package ".data.isPrefixOf l || "function ".data.isPrefixOf l ||
  "record ".data.isPrefixOf l || "connector ".data.isPrefixOf l ||
  "class ".data.isPrefixOf l

/-- Control-block opener (source line 121). -/
def isCtrlOpener (l : List Char) : Bool :=
  ("if ".data.isPrefixOf l && "then".data.isSuffixOf l) ||
  ("when ".data.isPrefixOf l && "then".data.isSuffixOf l) ||
  ("for ".data.isPrefixOf l && "loop".data.isSuffixOf l)

/-- `else` or `elseif ` line (source line 133). -/
def isElseLine (l : List Char) : Bool :=
  l == "else".data || "elseif ".data.isPrefixOf l

/-- Control-structure terminator (source line 146). -/
def isCtrlEnder (l : List Char) : Bool :=
  "end if".data.isPrefixOf l || "end when".data.isPrefixOf l ||
  "end for".data.isPrefixOf l

/-- Class terminator: `end ` but not a control terminator (source line 105). -/
def isClassEnd (l : List Char) : Bool :=
  "end ".data.isPrefixOf l && !("end if".data.isPrefixOf l) &&
  !("end when".data.isPrefixOf l) && !("end for".data.isPrefixOf l)

/-- Continuation detection (source line 158): the previous raw line,
trimmed, ends with `(` or `,`; only applicable when a previous line
exists (`i > 0`). -/
def prevContinues (prev : Option (List Char)) : Bool :=
  match prev with
  | some p => "(".data.isSuffixOf (trimL p) || ",".data.isSuffixOf (trimL p)
  | none => false

/-- One iteration of the engine's line loop (source lines 60-179),
returning the updated state and the emitted line (`none` when
`indent.repeat` is called with a negative level, i.e. the JS throws). -/
def engineStep (iu : List Char) (st : EngState) (prev : Option (List Char))
    (raw : List Char) : EngState × Option (List Char) :=
  let line := trimL raw
  if line == [] then (st, some [])
  else if isSectionKw line then
    ({ st with inEquation := includesL "equation".data line,
               inAlgorithm := includesL "algorithm".data line },
     (jsRepeat iu st.indentLevel).map (· ++ line))
  else if isSectionEnder line || isSectionKw line then
    let lvl := if line == "end".data || line == "end;".data
               then max 0 (st.indentLevel - 1) else st.indentLevel
    ({ st with indentLevel := lvl,
               inEquation := includesL "equation".data line,
               inAlgorithm := includesL "algorithm".data line },
     (jsRepeat iu lvl).map (· ++ line))
  else if isClassKw line then
    ({ st with indentLevel := st.indentLevel + 1 },
     (jsRepeat iu st.indentLevel).map (· ++ line))
  else if isClassEnd line then
    let lvl := max 0 (st.indentLevel - 1)
    ({ st with indentLevel := lvl }, (jsRepeat iu lvl).map (· ++ line))
  else if st.inEquation || st.inAlgorithm then
    if "//".data.isPrefixOf line then
      (st, (jsRepeat iu (st.indentLevel + 1)).map (· ++ line))
    else if isCtrlOpener line then
      ({ st with
          controlBlocks :=
            ⟨line.takeWhile (fun c => !(c == ' ')), st.indentLevel + 1⟩ :: st.controlBlocks,
          indentLevel := st.indentLevel + 1 },
       (jsRepeat iu (st.indentLevel + 1)).map (· ++ line))
    else if isElseLine line then
      match st.controlBlocks with
      | f :: _ =>
        ({ st with indentLevel := f.level }, (jsRepeat iu f.level).map (· ++ line))
      | [] => (st, (jsRepeat iu st.indentLevel).map (· ++ line))
    else if isCtrlEnder line then
      match st.controlBlocks with
      | _ :: rest =>
        let lvl := st.indentLevel - 1
        ({ st with controlBlocks := rest, indentLevel := lvl },
         (jsRepeat iu lvl).map (· ++ line))
      | [] => (st, (jsRepeat iu st.indentLevel).map (· ++ line))
    else if prevContinues prev then
      (st, (jsRepeat iu (st.indentLevel + 2)).map (· ++ line))
    else
      (st, (jsRepeat iu (st.indentLevel + 1)).map (· ++ line))
  else (st, (jsRepeat iu st.indentLevel).map (· ++ line))

/-- The engine's scan over all lines; `none` as soon as a single emit
fails, since the JS exception aborts the whole call. -/
def engineGo (iu : List Char) :
    EngState → Option (List Char) → List (List Char) → Option (List (List Char))
  | _, _, [] => some []
  | st, prev, l :: ls =>
    match engineStep iu st prev l with
    | (st2, some out) => (engineGo iu st2 (some l) ls).map (out :: ·)
    | (_, none) => none

/-- The state trace of the engine: the scan state after processing a list
of lines (state updates in the JS loop happen before the emit call of the
same iteration, so this is defined even where the emit fails). -/
def engineStates (iu : List Char) :
    EngState → Option (List Char) → List (List Char) → EngState
  | st, _, [] => st
  | st, prev, l :: ls => engineStates iu (engineStep iu st prev l).1 (some l) ls

/-- Initial engine state (source lines 47-50). -/
def engInit : EngState := ⟨0, false, false, []⟩

/-! ### Stage 3 and stage 5 compositions -/

/-- The token normalizer (source lines 187-229): the ordered whole-text
substitutions applied to the engine's output. -/
def tokNorm (t0 : List Char) : List Char :=
  let t1 := gsub mWithin1 none t0
  let t2 := gsub mWithin2 none t1
  let t3 := gsub mComma none t2
  let t4 := gsub mOpSpace none t3
  let t5 := gsub mMinusSub none t4
  let t6 := gsub mMinusLit none t5
  let t7 := gsub mMinusNeg none t6
  let t8 := gsub mExpMinus none t7
  let t9 := gsub mAnnot none t8
  let t10 := gsub mBrackColonEmpty none t9
  let t11 := gsub mColonPair none t10
  let t12 := gsub mArrRange none t11
  let t13 := gsub mArrColonW none t12
  let t14 := gsub mForRange none t13
  let t15 := gsub mBrackNegP none t14
  let t16 := gsub mBraceNegP none t15
  let t17 := gsub mParamKw none t16
  let t18 := gsub mCollapse none t17
  gsub mSectionBlank none t18

/-- The final cleanup pass (source lines 285-304). -/
def cleanup (t0 : List Char) : List Char :=
  let t1 := gsub mSlashFix none t0
  let t2 := gsub mWsMinusDigit none t1
  let t3 := gsub mParenMinus none t2
  let t4 := gsub mBrackMinus none t3
  let t5 := gsub mCommaMinus none t4
  let t6 := gsub mEqMinus none t5
  let t7 := gsub mExpMinus none t6
  let t8 := gsub mExpPlus none t7
  let t9 := gsub mNUniMinus none t8
  let t10 := gsub mParenNUniMinus none t9
  let t11 := gsub mStarMinus none t10
  let t12 := gsub mSlashMinus none t11
  let t13 := gsub mNUniPlusRat2 none t12
  gsub mNUniParen none t13

/-! ### Stage 4: the corrective re-indentation pass -/

/-- State of the corrective pass (source lines 233-234): whether an
equation/algorithm section is active and the indent level measured from
the section header's own leading whitespace. -/
structure CorrState where
  inEqSection : Bool
  eqIndentLevel : Nat
deriving Repr, DecidableEq

/-- Control-structure header as recognized by the corrective pass (source
line 259): `if `/`when ` ending in `then` (no `for`/`loop` case here). -/
def isCtrlHeader (l : List Char) : Bool :=
  ("if ".data.isPrefixOf l || "when ".data.isPrefixOf l) && "then".data.isSuffixOf l

/-- One iteration of the corrective pass (source lines 237-280).
`eqIndentLevel` is `indent.length / tabWidth`; JS computes this with
number division, which is exact whenever `tabWidth` divides the header's
leading-whitespace length (always the case for text produced by the
engine, whose indents are whole multiples of the tab string); it is
embedded as Nat division. -/
def corrStep (tw : Nat) (st : CorrState) (raw : List Char) : CorrState × List Char :=
  let line := trimL raw
  if isSectionKw line then
    ({ inEqSection := true, eqIndentLevel := (raw.takeWhile isJSSpace).length / tw }, raw)
  else if st.inEqSection && isSectionEnder line then
    ({ st with inEqSection := false }, raw)
  else if st.inEqSection then
    if isCtrlHeader line then
      (st, List.replicate ((st.eqIndentLevel + 1) * tw) ' ' ++ line)
    else if isElseLine line then
      (st, List.replicate ((st.eqIndentLevel + 1) * tw) ' ' ++ line)
    else if isCtrlEnder line then
      (st, List.replicate ((st.eqIndentLevel + 1) * tw) ' ' ++ line)
    else (st, raw)
  else (st, raw)

/-- The corrective pass over all lines. -/
def corrPass (tw : Nat) : CorrState → List (List Char) → List (List Char)
  | _, [] => []
  | st, l :: ls =>
    match corrStep tw st l with
    | (st2, l2) => l2 :: corrPass tw st2 ls

/-! ### The full pipeline -/

/-- The two recognized options (source line 34); `printWidth` is accepted
but never read by the formatter. -/
structure Opts where
  tabWidth : Nat
  printWidth : Nat
deriving Repr, DecidableEq

/-- `defaultOptions` of the plugin. -/
def defaultOpts : Opts := ⟨2, 80⟩

/-- Stage 1 whole-text part: newline normalization and comment repair
(source lines 38-40). -/
def preText (cs : List Char) : List Char :=
  gsub mSlashFix none (gsub mCRLF none cs)

/-- Stage 1 per-line part (source lines 53-58) applied to the split lines. -/
def preLine (l : List Char) : List Char :=
  let l1 := gsub mNUniTight none l
  let l2 := gsub mRatTight none l1
  gsub mNUniPlusRat1 none l2

/-- The preprocessed line array that the engine loop reads. -/
def preLines (cs : List Char) : List (List Char) :=
  (splitNl (preText cs)).map preLine

/-- The result of the indentation-engine stage on an input text, `none`
when the engine throws. -/
def engineOutput (opts : Opts) (cs : List Char) : Option (List (List Char)) :=
  engineGo (List.replicate opts.tabWidth ' ') engInit none (preLines cs)

/-- The full `formatModelica` pipeline on a character list. -/
def formatCore (opts : Opts) (cs : List Char) : Option (List Char) :=
  match engineOutput opts cs with
  | none => none
  | some outs =>
    let t := tokNorm (joinNl outs)
    let fl := corrPass opts.tabWidth ⟨false, 0⟩ (splitNl t)
    some (cleanup (joinNl fl))

/-- `formatModelica(text, options)`: `some` of the reformatted text, or
`none` when the JS function throws. -/
def formatModelica (text : String) (opts : Opts) : Option String :=
  (formatCore opts text.data).map String.mk

/-- Leading-whitespace width of a line, for stating indentation facts. -/
def leadingWS (l : List Char) : Nat :=
  (l.takeWhile isJSSpace).length

/-! ### Claim C9 -/

/-- C9: the output of formatModelica is independent of the printWidth
option — for every input text and any two printWidth values (same
tabWidth), the returned text is identical; no logic consults printWidth. -/
theorem c9_printWidth_independent (t : String) (tw pw1 pw2 : Nat) :
    formatModelica t ⟨tw, pw1⟩ = formatModelica t ⟨tw, pw2⟩ := rfl

/-! ### Claim C10 -/

/-- C10: the operator-spacing substitution treats `+ * / = < >` as
independent single-character operators, so compound operators split:
`x >= y` formats to `x >  = y`, and an algorithm assignment `x := 1;`
formats to `x : = 1;`. -/
theorem c10_compound_operators_split :
    formatModelica "x >= y" defaultOpts = some "x >  = y" ∧
    formatModelica "algorithm\nx := 1;" defaultOpts = some "algorithm\n\n  x : = 1;" :=
  ⟨by decide, by decide⟩

/-! ### Claim C5 -/

/-- C5 counterexample: the first spec example fails — the input
`x = 1 - 2;` does NOT keep its subtraction spaced; the literal-sign rule
(whitespace before `-` followed by space and a digit) tightens it. -/
theorem c5_counterexample :
    formatModelica "x = 1 - 2;" defaultOpts ≠ some "x = 1 - 2;" := by decide

/-- C5 (amended): the pipeline maps `x = 1 - 2;` to `x = 1 -2;` (spaced
subtraction before a digit is tightened by the literal-sign rule), while
`x = -1;` and the scientific literal in `x = 1e-5;` are preserved. -/
theorem c5_minus_examples :
    formatModelica "x = 1 - 2;" defaultOpts = some "x = 1 -2;" ∧
    formatModelica "x = -1;" defaultOpts = some "x = -1;" ∧
    formatModelica "x = 1e-5;" defaultOpts = some "x = 1e-5;" :=
  ⟨by decide, by decide, by decide⟩

/-! ### Claim C7 -/

/-- C7: for an if/else construct inside an equation section, the final
output emits the `else` line at exactly the same indentation as its
matching `if` header (line 2 and line 4 of the output both carry leading
width 2). -/
theorem c7_else_aligns_with_if :
    (formatModelica "equation\nif x > 0 then\ny = 1;\nelse\ny = -1;\nend if;"
        defaultOpts).map
      (fun s =>
        (leadingWS ((splitNl s.data).getD 2 []), trimL ((splitNl s.data).getD 2 []),
         leadingWS ((splitNl s.data).getD 4 []), trimL ((splitNl s.data).getD 4 [])))
    = some (2, "if x > 0 then".data, 2, "else".data) := by decide

/-! ### Claim C1 -/

/-- C1 counterexample: formatModelica does not return a string for every
input — on an unbalanced input where a class terminator decrements the
level while a control frame is still stacked, the subsequent `end if`
decrements the level to -1 and `' '.repeat(-1)` throws (modelled `none`). -/
theorem c1_counterexample :
    formatModelica "equation\nif x > 0 then\nend A\nend if" defaultOpts = none := by decide

/-- C1 (amended): the formatter terminates for every input, and the
indentation engine's emit is the only failure point: whenever the engine
stage succeeds, the remaining pipeline stages are total and formatModelica
returns a string. -/
theorem c1_engine_ok_returns_string (t : String) (opts : Opts)
    (h : (engineOutput opts t.data).isSome = true) :
    (formatModelica t opts).isSome = true := by
  unfold formatModelica formatCore
  cases he : engineOutput opts t.data with
  | none => rw [he] at h; simp at h
  | some outs => simp [he]

/-- C1 witness: a well-formed input on which the engine succeeds and the
theorem yields a returned string. -/
theorem c1_witness :
    (engineOutput defaultOpts "x = 1;".data).isSome = true ∧
    (formatModelica "x = 1;" defaultOpts).isSome = true :=
  ⟨by decide, c1_engine_ok_returns_string "x = 1;" defaultOpts (by decide)⟩

/-! ### Claim C3 -/

/-- C3 counterexample: formatModelica is not idempotent — formatting the
formatted output of `model A\nequation\nx = 1;\nend A;` does not
reproduce it. -/
theorem c3_counterexample :
    (formatModelica "model A\nequation\nx = 1;\nend A;" defaultOpts).bind
        (fun s => formatModelica s defaultOpts)
      ≠ formatModelica "model A\nequation\nx = 1;\nend A;" defaultOpts := by decide

/-- C3 (amended): the blank-line-after-section-header rule runs after the
blank-line-collapsing rule, so once a blank line follows a header each
pass inserts one more: the first pass maps the example to a text with one
blank line after `equation`, and formatting that output yields two. -/
theorem c3_not_idempotent :
    formatModelica "model A\nequation\nx = 1;\nend A;" defaultOpts
      = some "model A\n  equation\n\n    x = 1;\nend A;" ∧
    formatModelica "model A\n  equation\n\n    x = 1;\nend A;" defaultOpts
      = some "model A\n  equation\n\n\n    x = 1;\nend A;" :=
  ⟨by decide, by decide⟩

/-! ### Claim C2, counterexample part -/

/-- C2 counterexample: the indent level is NOT clamped on the
control-structure-close decrement — after the four lines below (a class
terminator consumes the opener's level while the frame is still stacked)
the engine's indent level is -1. -/
theorem c2_counterexample :
    (engineStates (List.replicate 2 ' ') engInit none
        ["equation".data, "if x > 0 then".data, "end A".data, "end if".data]).indentLevel
      = -1 := by decide

/-! ### Claim C6, counterexample part -/

/-- C6 counterexample: after `equation`, `if a then`, `end;` the section
flags are off (the section was exited) but the control-block stack still
holds the unmatched `if` frame — the stack is not empty outside a
section. -/
theorem c6_counterexample :
    (engineStates (List.replicate 2 ' ') engInit none
        ["equation".data, "if a then".data, "end;".data]).inEquation = false ∧
    (engineStates (List.replicate 2 ' ') engInit none
        ["equation".data, "if a then".data, "end;".data]).inAlgorithm = false ∧
    (engineStates (List.replicate 2 ' ') engInit none
        ["equation".data, "if a then".data, "end;".data]).controlBlocks ≠ [] := by
  refine ⟨by decide, by decide, by decide⟩

/-- C6 (amended): control-block frames are only pushed/popped while an
equation/algorithm section is active — an engine step taken with both
section flags off never changes the stack (but the stack is not cleared
on section exit, so it can be non-empty outside a section, see the
counterexample). -/
theorem c6_stack_untouched_outside_section (iu : List Char) (st : EngState)
    (prev : Option (List Char)) (l : List Char)
    (h1 : st.inEquation = false) (h2 : st.inAlgorithm = false) :
    (engineStep iu st prev l).1.controlBlocks = st.controlBlocks := by
  unfold engineStep
  rw [h1, h2]
  simp only [Bool.or_self, Bool.false_eq_true, if_false]
  repeat' split
  all_goals rfl

/-- C6 witness: a concrete out-of-section state with a stacked frame and a
statement line; the step leaves the stack unchanged. -/
theorem c6_witness :
    (engineStep (List.replicate 2 ' ') ⟨0, false, false, [⟨"if".data, 1⟩]⟩
        (some "equation".data) "x = 2;".data).1.controlBlocks
      = [(⟨"if".data, 1⟩ : Frame)] :=
  c6_stack_untouched_outside_section (List.replicate 2 ' ')
    ⟨0, false, false, [⟨"if".data, 1⟩]⟩ (some "equation".data) "x = 2;".data rfl rfl

/-! ### Claim C4 -/

/-- A control-structure keyword line as recognized by the corrective pass:
an `if `/`when ` header ending in `then`, an `else`/`elseif` line, or an
`end if`/`end when`/`end for` line. -/
def isCtrlKwLine (l : List Char) : Bool :=
  isCtrlHeader l || isElseLine l || isCtrlEnder l

/-- A control-structure keyword line is never a section keyword. -/
lemma ctrlKw_not_sectionKw (l : List Char) (h : isCtrlKwLine l = true) :
    isSectionKw l = false := by
  cases hs : isSectionKw l
  · rfl
  · exfalso
    unfold isSectionKw at hs
    simp only [Bool.or_eq_true, beq_iff_eq] at hs
    rcases hs with ((h1 | h1) | h1) | h1 <;> subst h1 <;> exact absurd h (by decide)

/-- A control-structure keyword line is never a section-ending line. -/
lemma ctrlKw_not_sectionEnder (l : List Char) (h : isCtrlKwLine l = true) :
    isSectionEnder l = false := by
  cases hs : isSectionEnder l
  · rfl
  · exfalso
    unfold isSectionEnder at hs
    simp only [Bool.or_eq_true, beq_iff_eq] at hs
    rcases hs with ((h1 | h1) | h1) | h1 <;> subst h1 <;> exact absurd h (by decide)

/-- C4: in the corrective pass, every line recognized as a
control-structure keyword line while an equation/algorithm section is
active has its leading whitespace rewritten to exactly
(sectionHeaderLevel + 1) * tabWidth spaces, regardless of nesting depth;
consequently a control structure nested two levels deep is flattened so
both levels share one indent depth, as the concrete run shows. -/
theorem c4_ctrl_lines_rewritten :
    (∀ (tw : Nat) (st : CorrState) (raw : List Char),
        st.inEqSection = true → isCtrlKwLine (trimL raw) = true →
        (corrStep tw st raw).2
          = List.replicate ((st.eqIndentLevel + 1) * tw) ' ' ++ trimL raw) ∧
    formatModelica "equation\nif a then\nif b then\nx = 1;\nend if;\nend if;" defaultOpts
      = some "equation\n\n  if a then\n  if b then\n      x = 1;\n  end if;\n  end if;" := by
  constructor
  · intro tw st raw hEq hCtrl
    have hs1 := ctrlKw_not_sectionKw _ hCtrl
    have hs2 := ctrlKw_not_sectionEnder _ hCtrl
    have hCtrl2 := hCtrl
    unfold isCtrlKwLine at hCtrl2
    unfold corrStep
    cases h1 : isCtrlHeader (trimL raw) with
    | true =>
      simp only [hs1, hs2, hEq, h1, Bool.false_eq_true, if_false, Bool.and_false, if_true]
    | false =>
      cases h2 : isElseLine (trimL raw) with
      | true =>
        simp only [hs1, hs2, hEq, h1, h2, Bool.false_eq_true, if_false, Bool.and_false,
          if_true]
      | false =>
        have h3 : isCtrlEnder (trimL raw) = true := by
          rw [h1, h2] at hCtrl2; simpa using hCtrl2
        simp only [hs1, hs2, hEq, h1, h2, h3, Bool.false_eq_true, if_false, Bool.and_false,
          if_true]
  · decide

/-- C4 witness: a concrete in-section state and a nested `if` header line;
the corrective step rewrites its leading whitespace to one level below
the section header. -/
theorem c4_witness :
    ((⟨true, 0⟩ : CorrState).inEqSection = true
      ∧ isCtrlKwLine (trimL "    if a then".data) = true) ∧
    (corrStep 2 ⟨true, 0⟩ "    if a then".data).2
      = List.replicate (((⟨true, 0⟩ : CorrState).eqIndentLevel + 1) * 2) ' '
          ++ trimL "    if a then".data :=
  ⟨⟨rfl, by decide⟩, c4_ctrl_lines_rewritten.1 2 ⟨true, 0⟩ "    if a then".data rfl (by decide)⟩


/-! ### Claim C8 -/

/-- The newline-run decomposition used by the collapse matcher: a leading
newline run followed by text not starting with a newline. -/
lemma nlRun_split (m : Nat) (b : List Char) (hb : b = [] ∨ b.head? ≠ some '\n') :
    (List.replicate m '\n' ++ b).takeWhile (fun x => x == '\n') = List.replicate m '\n' ∧
    (List.replicate m '\n' ++ b).dropWhile (fun x => x == '\n') = b := by
  induction m with
  | zero =>
    simp only [List.replicate_zero, List.nil_append]
    cases b with
    | nil => exact ⟨rfl, rfl⟩
    | cons c cs =>
      have hc : (c == '\n') = false := by
        rcases hb with h | h
        · exact absurd h (by simp)
        · exact beq_eq_false_iff_ne.mpr (by intro he; exact h (by rw [List.head?_cons, he]))
      exact ⟨by simp [List.takeWhile_cons, hc], by simp [List.dropWhile_cons, hc]⟩
  | succ m ih =>
    refine ⟨?_, ?_⟩
    · simp [List.replicate_succ, List.takeWhile_cons, ih.1]
    · simp [List.replicate_succ, List.dropWhile_cons, ih.2]

/-- The driver's result does not depend on the fuel once it covers the
input (each accepted match consumes at least one character). -/
lemma gsubF_fuel (m : Option Char → List Char → Option (List Char × List Char)) :
    ∀ (fuel : Nat) (prev : Option Char) (cs : List Char), cs.length ≤ fuel →
      gsubF m fuel prev cs = gsubF m cs.length prev cs := by
  intro fuel
  induction fuel using Nat.strong_induction_on with
  | _ fuel ih =>
    match fuel with
    | 0 =>
      intro prev cs hf
      have h0 : cs = [] := List.length_eq_zero.mp (Nat.le_zero.mp hf)
      subst h0; rfl
    | f + 1 =>
      intro prev cs hf
      cases cs with
      | nil => rfl
      | cons c cs2 =>
        have hf2 : cs2.length + 1 ≤ f + 1 := by simpa using hf
        simp only [List.length_cons, gsubF]
        cases hm : m prev (c :: cs2) with
        | none =>
          rw [ih f (by omega) (some c) cs2 (by omega),
            ← ih cs2.length (by omega) (some c) cs2 (Nat.le_refl _)]
        | some pr =>
          cases pr with
          | mk r rest =>
            by_cases hg : rest.length < cs2.length + 1
            · simp only [hg, if_true]
              rw [ih f (by omega) _ rest (by omega),
                ← ih cs2.length (by omega) _ rest (by omega)]
            · simp only [hg, if_false]
              rw [ih f (by omega) (some c) cs2 (by omega),
                ← ih cs2.length (by omega) (some c) cs2 (Nat.le_refl _)]

/-- The collapse matcher ignores the previous-character channel, so the
driver's output with it is independent of the initial previous
character. -/
lemma gsubF_mCollapse_prev (fuel : Nat) (p1 p2 : Option Char) (cs : List Char) :
    gsubF mCollapse fuel p1 cs = gsubF mCollapse fuel p2 cs := by
  cases fuel with
  | zero => rfl
  | succ f =>
    cases cs with
    | nil => rfl
    | cons c cs2 => rfl

/-- Rewriting form of the previous lemma, normalizing the channel to
`none`. -/
lemma gsubF_mCollapse_prev_none (fuel : Nat) (p : Option Char) (cs : List Char) :
    gsubF mCollapse fuel p cs = gsubF mCollapse fuel none cs :=
  gsubF_mCollapse_prev fuel p none cs

/-- A whole-input takeWhile/dropWhile stops inside a prefix that contains
a witness failing the predicate. -/
lemma takeWhile_append_stop (p : Char → Bool) :
    ∀ (a x : List Char), (∃ y ∈ a, p y = false) →
      (a ++ x).takeWhile p = a.takeWhile p ∧
      (a ++ x).dropWhile p = a.dropWhile p ++ x := by
  intro a
  induction a with
  | nil => intro x hw; exact absurd hw (by simp)
  | cons c a2 ih =>
    intro x hw
    cases hc : p c with
    | false =>
      constructor
      · simp [List.cons_append, List.takeWhile_cons, hc]
      · simp [List.cons_append, List.dropWhile_cons, hc]
    | true =>
      have hw2 : ∃ y ∈ a2, p y = false := by
        obtain ⟨y, hy, hpy⟩ := hw
        rcases List.mem_cons.mp hy with rfl | hy2
        · rw [hc] at hpy; cases hpy
        · exact ⟨y, hy2, hpy⟩
      have hih := ih x hw2
      constructor
      · simp [List.cons_append, List.takeWhile_cons, hc, hih.1]
      · simp [List.cons_append, List.dropWhile_cons, hc, hih.2]

/-- A list whose last character is not a newline contains a non-newline
witness. -/
lemma last_witness (a : List Char) (hne : a ≠ []) (h : a.getLast? ≠ some '\n') :
    ∃ y ∈ a, (y == '\n') = false := by
  refine ⟨a.getLast hne, List.getLast_mem hne, beq_eq_false_iff_ne.mpr ?_⟩
  intro heq
  exact h (by rw [List.getLast?_eq_getLast a hne, heq])

/-- A leading newline run of length at least 3 followed by text not
starting with a newline collapses to two newlines, the rest processed by
the same rule. -/
lemma gsubF_mCollapse_run (b : List Char) (hb : b = [] ∨ b.head? ≠ some '\n')
    (n : Nat) (hn : 3 ≤ n) :
    ∀ (fuel : Nat) (prev : Option Char),
      (List.replicate n '\n' ++ b).length ≤ fuel →
      gsubF mCollapse fuel prev (List.replicate n '\n' ++ b)
        = '\n' :: '\n' :: gsubF mCollapse b.length none b := by
  intro fuel prev hf
  obtain ⟨m, rfl⟩ : ∃ m, n = m + 3 := ⟨n - 3, by omega⟩
  have hsplit := nlRun_split (m + 3) b hb
  have hm : mCollapse prev (List.replicate (m + 3) '\n' ++ b)
      = some (['\n', '\n'], b) := by
    unfold mCollapse
    rw [List.span_eq_take_drop]
    simp [hsplit.1, hsplit.2]
  have hlen : (List.replicate (m + 3) '\n' ++ b).length = m + 3 + b.length := by simp
  cases fuel with
  | zero => exfalso; rw [hlen] at hf; omega
  | succ f =>
    have hcons : List.replicate (m + 3) '\n' ++ b
        = '\n' :: (List.replicate (m + 2) '\n' ++ b) := by
      simp [List.replicate_succ]
    rw [hcons]
    simp only [gsubF]
    rw [← hcons, hm]
    have hif : b.length < (List.replicate (m + 2) '\n' ++ b).length + 1 := by
      simp only [List.length_append, List.length_replicate]
      omega
    simp only [hif, if_true]
    rw [gsubF_fuel mCollapse f _ b (by rw [hlen] at hf; omega)]
    rw [gsubF_mCollapse_prev b.length _ none b]
    rfl

/-- Splitting the collapse around one maximal newline run, for an
arbitrary prefix not ending in a newline and an arbitrary suffix not
starting with one (both may contain newlines and further runs of their
own). -/
lemma collapse_split_main :
    ∀ (N : Nat) (a : List Char), a.length ≤ N →
      (a = [] ∨ a.getLast? ≠ some '\n') →
      ∀ (b : List Char) (n : Nat), 3 ≤ n → (b = [] ∨ b.head? ≠ some '\n') →
      ∀ (fuel : Nat) (prev : Option Char),
        (a ++ (List.replicate n '\n' ++ b)).length ≤ fuel →
        gsubF mCollapse fuel prev (a ++ (List.replicate n '\n' ++ b))
          = gsubF mCollapse a.length none a
              ++ '\n' :: '\n' :: gsubF mCollapse b.length none b := by
  intro N
  induction N with
  | zero =>
    intro a haN ha b n hn hb fuel prev hf
    have ha0 : a = [] := List.length_eq_zero.mp (Nat.le_zero.mp haN)
    subst ha0
    simp only [List.nil_append] at hf ⊢
    exact gsubF_mCollapse_run b hb n hn fuel prev hf
  | succ N ih =>
    intro a haN ha b n hn hb fuel prev hf
    cases a with
    | nil =>
      simp only [List.nil_append] at hf ⊢
      exact gsubF_mCollapse_run b hb n hn fuel prev hf
    | cons c a2 =>
      have hne : (c :: a2) ≠ [] := by simp
      have hlast : (c :: a2).getLast? ≠ some '\n' := ha.resolve_left hne
      have hw : ∃ y ∈ (c :: a2), (y == '\n') = false := last_witness _ hne hlast
      have hTD := List.takeWhile_append_dropWhile (fun x => x == '\n') (c :: a2)
      have hspan := takeWhile_append_stop (fun x => x == '\n') (c :: a2)
        (List.replicate n '\n' ++ b) hw
      have hlen2 : ((c :: a2).takeWhile (fun x => x == '\n')).length
          + ((c :: a2).dropWhile (fun x => x == '\n')).length = a2.length + 1 := by
        rw [← List.length_append, hTD]; rfl
      cases fuel with
      | zero =>
        exfalso
        simp only [List.cons_append, List.length_cons, Nat.le_zero] at hf
        omega
      | succ f =>
      by_cases hk : 3 ≤ ((c :: a2).takeWhile (fun x => x == '\n')).length
      · -- the head newline run of the prefix collapses first
        have hD : (c :: a2).dropWhile (fun x => x == '\n') ≠ [] := by
          intro hD0
          obtain ⟨y, hy, hpy⟩ := hw
          have hyT : y ∈ (c :: a2).takeWhile (fun x => x == '\n') := by
            rw [← hTD] at hy
            simpa [hD0] using hy
          have := List.mem_takeWhile_imp hyT
          rw [hpy] at this
          cases this
        have hD2 : (c :: a2).dropWhile (fun x => x == '\n') = []
            ∨ ((c :: a2).dropWhile (fun x => x == '\n')).getLast? ≠ some '\n' := by
          refine Or.inr ?_
          have hor := @List.getLast?_append Char
            ((c :: a2).takeWhile (fun x => x == '\n'))
            ((c :: a2).dropWhile (fun x => x == '\n'))
          rw [hTD] at hor
          rw [List.getLast?_eq_getLast _ hD] at hor
          have heq : (c :: a2).getLast?
              = some (((c :: a2).dropWhile (fun x => x == '\n')).getLast hD) :=
            hor.trans rfl
          rw [List.getLast?_eq_getLast _ hD]
          intro hContra
          exact hlast (heq.trans hContra)
        have hm : mCollapse prev (c :: (a2 ++ (List.replicate n '\n' ++ b)))
            = some (['\n', '\n'],
                (c :: a2).dropWhile (fun x => x == '\n')
                  ++ (List.replicate n '\n' ++ b)) := by
          unfold mCollapse
          simp only [List.span_eq_take_drop, ← List.cons_append, hspan.1, hspan.2]
          rw [if_pos hk]
        have hm2 : mCollapse none (c :: a2)
            = some (['\n', '\n'], (c :: a2).dropWhile (fun x => x == '\n')) := by
          unfold mCollapse
          simp only [List.span_eq_take_drop]
          rw [if_pos hk]
        have hfS : a2.length + 1 + (n + b.length) ≤ f + 1 := by
          have hx : ((c :: a2) ++ (List.replicate n '\n' ++ b)).length
              = a2.length + 1 + (n + b.length) := by
            simp only [List.cons_append, List.length_cons, List.length_append,
              List.length_replicate]
            omega
          rw [hx] at hf
          exact hf
        have haN2 : a2.length + 1 ≤ N + 1 := by simpa using haN
        have hg1 : ((c :: a2).dropWhile (fun x => x == '\n')
              ++ (List.replicate n '\n' ++ b)).length
            = ((c :: a2).dropWhile (fun x => x == '\n')).length + (n + b.length) := by
          simp
        have hg2 : (a2 ++ (List.replicate n '\n' ++ b)).length
            = a2.length + (n + b.length) := by simp
        have hDlen : ((c :: a2).dropWhile (fun x => x == '\n')).length ≤ a2.length := by
          omega
        have hguard : ((c :: a2).dropWhile (fun x => x == '\n')
              ++ (List.replicate n '\n' ++ b)).length
            < (a2 ++ (List.replicate n '\n' ++ b)).length + 1 := by
          rw [hg1, hg2]
          omega
        have hguard2 : ((c :: a2).dropWhile (fun x => x == '\n')).length
            < a2.length + 1 := by omega
        have hfD : ((c :: a2).dropWhile (fun x => x == '\n')
              ++ (List.replicate n '\n' ++ b)).length ≤ f := by
          rw [hg1]
          omega
        have hDN : ((c :: a2).dropWhile (fun x => x == '\n')).length ≤ N := by omega
        have hIH := fun pr => ih ((c :: a2).dropWhile (fun x => x == '\n')) hDN hD2
          b n hn hb f pr hfD
        simp only [List.length_cons, List.cons_append, List.append_eq, gsubF, hm, hm2]
        rw [if_pos hguard, if_pos hguard2]
        rw [hIH _]
        rw [gsubF_fuel mCollapse a2.length _ _ hDlen]
        simp only [gsubF_mCollapse_prev_none]
        simp [List.append_assoc]
      · -- no run of length three starts here; the head character is kept
        have hm : mCollapse prev (c :: (a2 ++ (List.replicate n '\n' ++ b))) = none := by
          unfold mCollapse
          simp only [List.span_eq_take_drop, ← List.cons_append, hspan.1]
          rw [if_neg hk]
        have hm2 : mCollapse none (c :: a2) = none := by
          unfold mCollapse
          simp only [List.span_eq_take_drop]
          rw [if_neg hk]
        have ha2 : a2 = [] ∨ a2.getLast? ≠ some '\n' := by
          cases a2 with
          | nil => exact Or.inl rfl
          | cons x xs =>
            refine Or.inr ?_
            rw [List.getLast?_cons_cons] at hlast
            exact hlast
        have hfa : (a2 ++ (List.replicate n '\n' ++ b)).length ≤ f := by
          simp only [List.cons_append, List.length_cons] at hf
          omega
        have hIH := fun pr => ih a2 (by simpa using Nat.le_of_succ_le_succ (by simpa using haN))
          ha2 b n hn hb f pr hfa
        simp only [List.length_cons, List.cons_append, List.append_eq, gsubF, hm, hm2]
        rw [hIH _]
        simp only [gsubF_mCollapse_prev_none]

/-- C8: any maximal run of three or more consecutive newlines in the text
reaching the blank-line-collapsing rule — the surrounding text being
arbitrary: the prefix merely must not end, and the suffix not start, with
a newline, and both may contain further newlines and runs — is reduced to
exactly two newlines, i.e. one blank line, the surrounding text being
processed by the same rule; and four consecutive blank lines in the input
collapse to exactly one blank line in the final output of
formatModelica. -/
theorem c8_blank_lines_collapse :
    (∀ (a b : List Char) (n : Nat), 3 ≤ n →
        (a = [] ∨ a.getLast? ≠ some '\n') → (b = [] ∨ b.head? ≠ some '\n') →
        gsub mCollapse none (a ++ List.replicate n '\n' ++ b)
          = gsub mCollapse none a ++ '\n' :: '\n' :: gsub mCollapse none b) ∧
    formatModelica "x\n\n\n\n\ny" defaultOpts = some "x\n\ny" := by
  constructor
  · intro a b n hn ha hb
    rw [List.append_assoc]
    unfold gsub
    rw [show (a ++ (List.replicate n '\n' ++ b)).length
        = (a ++ List.replicate n '\n' ++ b).length from by rw [List.append_assoc]]
    exact collapse_split_main a.length a (Nat.le_refl _) ha b n hn hb _ none
      (by rw [List.append_assoc])
  · decide

/-- C8 witness: a prefix containing a short newline run and a suffix
containing its own long run; the theorem splits the collapse around the
middle run of four newlines. -/
theorem c8_witness :
    (3 ≤ 4
      ∧ (("p\n\nq".data : List Char) = []
          ∨ ("p\n\nq".data : List Char).getLast? ≠ some '\n')
      ∧ (("r\n\n\n\n\ns".data : List Char) = []
          ∨ ("r\n\n\n\n\ns".data : List Char).head? ≠ some '\n')) ∧
    gsub mCollapse none ("p\n\nq".data ++ List.replicate 4 '\n' ++ "r\n\n\n\n\ns".data)
      = gsub mCollapse none "p\n\nq".data
          ++ '\n' :: '\n' :: gsub mCollapse none "r\n\n\n\n\ns".data :=
  ⟨⟨by decide, by decide, by decide⟩,
    c8_blank_lines_collapse.1 "p\n\nq".data "r\n\n\n\n\ns".data 4
      (by decide) (by decide) (by decide)⟩


/-! ### Claim C2, amended part -/

/-- One engine step preserves nonnegativity of the indent level and of all
stacked frame levels, provided the line is not a control-structure
terminator (whose decrement is the one unclamped decrement). -/
lemma engineStep_nonneg (iu : List Char) (st : EngState) (prev : Option (List Char))
    (l : List Char) (h1 : 0 ≤ st.indentLevel)
    (h2 : ∀ f ∈ st.controlBlocks, 0 ≤ f.level)
    (hl : isCtrlEnder (trimL l) = false) :
    0 ≤ (engineStep iu st prev l).1.indentLevel ∧
      ∀ f ∈ (engineStep iu st prev l).1.controlBlocks, 0 ≤ f.level := by
  unfold engineStep
  cases hc0 : (trimL l == []) with
  | true => simp only [hc0, eq_self_iff_true, if_true]; exact ⟨h1, h2⟩
  | false =>
  simp only [hc0, Bool.false_eq_true, if_false]
  cases hc1 : isSectionKw (trimL l) with
  | true => simp only [hc1, eq_self_iff_true, if_true]; exact ⟨h1, h2⟩
  | false =>
  simp only [hc1, Bool.false_eq_true, if_false, Bool.or_false]
  cases hc2 : isSectionEnder (trimL l) with
  | true =>
    simp only [hc2, eq_self_iff_true, if_true]
    refine ⟨?_, h2⟩
    cases hc2b : (trimL l == "end".data || trimL l == "end;".data) with
    | true =>
      simp only [hc2b, eq_self_iff_true, if_true]
      exact le_max_left 0 _
    | false =>
      simp only [hc2b, Bool.false_eq_true, if_false]
      exact h1
  | false =>
  simp only [hc2, Bool.false_eq_true, if_false]
  cases hc3 : isClassKw (trimL l) with
  | true =>
    simp only [hc3, eq_self_iff_true, if_true]
    refine ⟨?_, h2⟩
    show 0 ≤ st.indentLevel + 1
    omega
  | false =>
  simp only [hc3, Bool.false_eq_true, if_false]
  cases hc4 : isClassEnd (trimL l) with
  | true =>
    simp only [hc4, eq_self_iff_true, if_true]
    exact ⟨le_max_left 0 _, h2⟩
  | false =>
  simp only [hc4, Bool.false_eq_true, if_false]
  cases hc5 : (st.inEquation || st.inAlgorithm) with
  | false => simp only [hc5, Bool.false_eq_true, if_false]; exact ⟨h1, h2⟩
  | true =>
  simp only [hc5, eq_self_iff_true, if_true]
  cases hc6 : "//".data.isPrefixOf (trimL l) with
  | true => simp only [hc6, eq_self_iff_true, if_true]; exact ⟨h1, h2⟩
  | false =>
  simp only [hc6, Bool.false_eq_true, if_false]
  cases hc7 : isCtrlOpener (trimL l) with
  | true =>
    simp only [hc7, eq_self_iff_true, if_true]
    refine ⟨?_, ?_⟩
    · show 0 ≤ st.indentLevel + 1
      omega
    · intro f hf
      rcases List.mem_cons.mp hf with rfl | hf2
      · show 0 ≤ st.indentLevel + 1
        omega
      · exact h2 f hf2
  | false =>
  simp only [hc7, Bool.false_eq_true, if_false]
  cases hc8 : isElseLine (trimL l) with
  | true =>
    simp only [hc8, eq_self_iff_true, if_true]
    cases hst : st.controlBlocks with
    | nil =>
      simp only [hst]
      exact ⟨h1, fun f hf => absurd hf (List.not_mem_nil f)⟩
    | cons f rest =>
      simp only [hst]
      exact ⟨h2 f (by rw [hst]; exact List.mem_cons_self f rest), hst ▸ h2⟩
  | false =>
  simp only [hc8, Bool.false_eq_true, if_false, hl]
  cases hc10 : prevContinues prev with
  | true => simp only [hc10, eq_self_iff_true, if_true]; exact ⟨h1, h2⟩
  | false => simp only [hc10, Bool.false_eq_true, if_false]; exact ⟨h1, h2⟩

/-- The whole scan preserves nonnegativity when no line is a
control-structure terminator. -/
lemma engineStates_nonneg (iu : List Char) :
    ∀ (lines : List (List Char)) (st : EngState) (prev : Option (List Char)),
      0 ≤ st.indentLevel → (∀ f ∈ st.controlBlocks, 0 ≤ f.level) →
      (∀ l ∈ lines, isCtrlEnder (trimL l) = false) →
      0 ≤ (engineStates iu st prev lines).indentLevel ∧
        ∀ f ∈ (engineStates iu st prev lines).controlBlocks, 0 ≤ f.level := by
  intro lines
  induction lines with
  | nil => intro st prev hst1 hst2 _; exact ⟨hst1, hst2⟩
  | cons l ls ih =>
    intro st prev hst1 hst2 hl
    have hstep := engineStep_nonneg iu st prev l hst1 hst2 (hl l (List.mem_cons_self l ls))
    exact ih (engineStep iu st prev l).1 (some l) hstep.1 hstep.2
      (fun x hx => hl x (List.mem_cons_of_mem l hx))

/-- C2 (amended): the indent level is clamped at zero on bare-end and
class-terminator decrements but NOT on the control-structure-close
decrement; for every input none of whose lines is an
`end if`/`end when`/`end for` line, the indent level is ≥ 0 after
processing each line (i.e. after every prefix of the scan). -/
theorem c2_indent_nonneg_without_ctrl_enders (lines : List (List Char))
    (iu : List Char) (k : Nat)
    (h : ∀ l ∈ lines, isCtrlEnder (trimL l) = false) :
    0 ≤ (engineStates iu engInit none (lines.take k)).indentLevel :=
  (engineStates_nonneg iu (lines.take k) engInit none (by decide)
    (by intro f hf; simp [engInit] at hf)
    (fun l hl => h l (List.take_subset k lines hl))).1

/-- C2 witness: a concrete two-line input without control terminators;
after both lines the level is nonnegative. -/
theorem c2_witness :
    (∀ l ∈ [("equation".data : List Char), "x = 1;".data],
        isCtrlEnder (trimL l) = false) ∧
    0 ≤ (engineStates (List.replicate 2 ' ') engInit none
        ([("equation".data : List Char), "x = 1;".data].take 2)).indentLevel :=
  ⟨by decide,
    c2_indent_nonneg_without_ctrl_enders ["equation".data, "x = 1;".data]
      (List.replicate 2 ' ') 2 (by decide)⟩
